import Mathlib

/-!
Shallow embedding of `check_gorm_postgres.py`, a static guardrail that scans
a Go source tree for raw-SQL usage.  Strings are modelled as `List Char`
(Python `str` is a sequence of code points), paths as their component lists
(Python `pathlib.Path.parts`), and file bytes as `List Nat`.
-/

namespace CheckGormPostgres

/-- The set of characters matched by Python's `re` class `\s` on `str`
patterns (Unicode whitespace, which is what `str.strip()`-style stripping
of `\s*` runs consumes). -/
def isPySpace (c : Char) : Bool :=
  c.val == 9 || c.val == 10 || c.val == 11 || c.val == 12 || c.val == 13 ||
  c.val == 28 || c.val == 29 || c.val == 30 || c.val == 31 || c.val == 32 ||
  c.val == 0x85 || c.val == 0xa0 || c.val == 0x1680 ||
  (0x2000 ≤ c.val && c.val ≤ 0x200a) ||
  c.val == 0x2028 || c.val == 0x2029 || c.val == 0x202f || c.val == 0x205f ||
  c.val == 0x3000

/-- Python `pat in line` (substring containment). -/
def strIn (pat l : List Char) : Bool := decide (pat <:+: l)

/-- The constant `ALLOW_TAG = "gorm-postgres-enforcer: allow-raw-sql"`. -/
def ALLOW_TAG : String := "gorm-postgres-enforcer: allow-raw-sql"

/-- The constant `SKIP_DIRS` holding `.git`, `vendor` and `node_modules`. -/
def SKIP_DIRS : List String := [".git", "vendor", "node_modules"]

/-- One compiled entry of `BAD_CALL_PATTERNS`: each pattern has the shape
`\.\s*<callName>\s*\(`; `source` is the regex source text `pat.pattern`
used in the violation message. -/
structure CallPat where
  callName : String
  source : String
deriving DecidableEq

/-- The list `BAD_CALL_PATTERNS`, in source order. -/
def BAD_CALL_PATTERNS : List CallPat :=
  [⟨"QueryContext", "\\.\\s*QueryContext\\s*\\("⟩,
   ⟨"QueryRowContext", "\\.\\s*QueryRowContext\\s*\\("⟩,
   ⟨"QueryRow", "\\.\\s*QueryRow\\s*\\("⟩,
   ⟨"Query", "\\.\\s*Query\\s*\\("⟩,
   ⟨"ExecContext", "\\.\\s*ExecContext\\s*\\("⟩,
   ⟨"Exec", "\\.\\s*Exec\\s*\\("⟩,
   ⟨"PrepareContext", "\\.\\s*PrepareContext\\s*\\("⟩,
   ⟨"Prepare", "\\.\\s*Prepare\\s*\\("⟩]

/-- Does the regex `\.\s*<name>\s*\(` match at the given position, i.e. is
`l` of the form `'.' :: spaces ++ name ++ spaces ++ '(' :: _`?  Because
the pattern names start with a letter and `(` is not whitespace, the greedy
`\s*` runs are exactly the maximal whitespace runs. -/
def callMatchHere (name : List Char) : List Char → Bool
  | '.' :: rest =>
    let r1 := rest.dropWhile isPySpace
    name.isPrefixOf r1 &&
      (match (r1.drop name.length).dropWhile isPySpace with
       | '(' :: _ => true
       | _ => false)
  | _ => false

/-- Evaluation of `pat.search(line)` for a `BAD_CALL_PATTERNS` entry: the pattern
`\.\s*<name>\s*\(` matches at some position of the line. -/
def callSearch (name : List Char) : List Char → Bool
  | [] => false
  | c :: rest => callMatchHere name (c :: rest) || callSearch name rest

/-- Auxiliary for `BAD_IMPORT_PATTERN.search(line)` with pattern `^\s*"database/sql"\s*$`:
since `^`/`$` (no MULTILINE) anchor at the line's ends and the literal
contains no whitespace, the line matches iff stripping `\s` characters from
both ends leaves exactly `"database/sql"`. -/
def pyStrip (l : List Char) : List Char :=
  ((l.dropWhile isPySpace).reverse.dropWhile isPySpace).reverse

/-- The quoted import path literal `"database/sql"` (with its quotes). -/
def importLit : List Char := '"' :: ("database/sql".data ++ ['"'])

/-- Whether `BAD_IMPORT_PATTERN` matches the line. -/
def importLineMatch (l : List Char) : Bool := pyStrip l == importLit

/-- Python `ALLOW_TAG in line`. -/
def allowTagIn (l : List Char) : Bool := strIn ALLOW_TAG.data l

/-- The `fmt.Sprintf` heuristic of `scan_file`:
`"fmt.Sprintf(" in line and ("SELECT " in line or "INSERT " in line or
"UPDATE " in line or "DELETE " in line)`. -/
def sprintfSuspect (l : List Char) : Bool :=
  strIn "fmt.Sprintf(".data l &&
    (strIn "SELECT ".data l || strIn "INSERT ".data l ||
     strIn "UPDATE ".data l || strIn "DELETE ".data l)

/-- The `Violation` dataclass: path (as components), 1-based line number,
message. -/
structure Violation where
  path : List String
  line_no : Nat
  message : String
deriving DecidableEq

/-- Message of the forbidden-import violation. -/
def importMsg : String := "forbidden import \"database/sql\""

/-- Message of the `fmt.Sprintf` heuristic violation. -/
def sprintfMsg : String := "possible SQL string construction with fmt.Sprintf"

/-- Message `f"forbidden raw SQL API usage: {pat.pattern}"`. -/
def callMsg (p : CallPat) : String := "forbidden raw SQL API usage: " ++ p.source

/-- The first `BAD_CALL_PATTERNS` entry whose regex matches the line
(the loop over `BAD_CALL_PATTERNS` with `break`). -/
def findFirstCall (l : List Char) : Option CallPat :=
  BAD_CALL_PATTERNS.find? (fun p => callSearch p.callName.data l)

/-- Python line-boundary characters recognised by `str.splitlines`. -/
def isLineBoundary (c : Char) : Bool :=
  c.val == 10 || c.val == 13 || c.val == 11 || c.val == 12 ||
  c.val == 28 || c.val == 29 || c.val == 30 || c.val == 0x85 ||
  c.val == 0x2028 || c.val == 0x2029

/-- Worker for `splitlines`: `acc` holds the current (reversed) line. -/
def splitlinesAux : List Char → List Char → List (List Char)
  | [], acc => if acc.isEmpty then [] else [acc.reverse]
  | '\r' :: '\n' :: rest, acc => acc.reverse :: splitlinesAux rest []
  | c :: rest, acc =>
    if isLineBoundary c then acc.reverse :: splitlinesAux rest []
    else splitlinesAux rest (c :: acc)

/-- Python `text.splitlines()`: split at line boundaries (`\r\n` counts once);
a trailing boundary does not produce a final empty line. -/
def splitlines (l : List Char) : List (List Char) := splitlinesAux l []

/-- The per-line body of `scan_file`'s loop: the violations emitted for
line number `i` with content `l`. -/
def scanLine (path : List String) (i : Nat) (l : List Char) : List Violation :=
  if allowTagIn l then []
  else if importLineMatch l then [⟨path, i, importMsg⟩]
  else
    (if sprintfSuspect l then [⟨path, i, sprintfMsg⟩] else []) ++
    (match findFirstCall l with
     | some p => [⟨path, i, callMsg p⟩]
     | none => [])

/-- The loop `for i, line in enumerate(lines, start=k)` over the loop body. -/
def scanLinesFrom (path : List String) : Nat → List (List Char) → List Violation
  | _, [] => []
  | i, l :: rest => scanLine path i l ++ scanLinesFrom path (i + 1) rest

/-- Body of `scan_file` after the text has been read: split into lines and scan
each, numbering from 1. -/
def scanText (path : List String) (text : List Char) : List Violation :=
  scanLinesFrom path 1 (splitlines text)

/-- Python `path.name`: the final path component (`""` for an empty parts list). -/
def pyName (path : List String) : String := path.getLastD ""

/-- Python `PurePath.suffix`: with `i` the index of the last `'.'` in the name,
the suffix is `name[i:]` when `0 < i < len(name) - 1`, else `""`. -/
def pySuffix (name : List Char) : List Char :=
  match (name.reverse.findIdx? (· == '.')).map (fun j => name.length - 1 - j) with
  | some i => if 0 < i ∧ i < name.length - 1 then name.drop i else []
  | none => []

/-- Python `name.endswith(suf)`. -/
def endsWith (suf l : List Char) : Bool := decide (suf <:+ l)

/-- The predicate `should_scan(path)`: `.go` suffix, not a `_test.go` file, no path
component in `SKIP_DIRS`, and not both `docs` and `httpserver` among the
components (`parts = set(path.parts)` contains every component of the
absolute path). -/
def should_scan (path : List String) : Bool :=
  if pySuffix (pyName path).data ≠ ".go".data then false
  else if endsWith "_test.go".data (pyName path).data then false
  else if path.any (fun part => SKIP_DIRS.contains part) then false
  else if path.contains "docs" && path.contains "httpserver" then false
  else true

/-- A file seen by `root.rglob("*.go")`: its path components relative to
the resolved root, and its decoded text content. -/
structure SrcFile where
  rel : List String
  text : List Char
deriving DecidableEq

/-- Absolute path of a discovered file: root components then relative
components. -/
def absPath (root : List String) (f : SrcFile) : List String := root ++ f.rel

/-- The accumulated violation list of `main`: for each discovered file, if
`should_scan` accepts it, append `scan_file`'s violations in order. -/
def runViolations (root : List String) (files : List SrcFile) : List Violation :=
  files.flatMap (fun f =>
    if should_scan (absPath root f) then scanText (absPath root f) f.text else [])

/-- Rendering of `item.path.relative_to(root)` with `/` separators, as printed
by `main` (every accumulated path is `root ++ rel`). -/
def relPathString (root : List String) (path : List String) : String :=
  String.intercalate "/" (path.drop root.length)

/-- The report line `- {rel}:{item.line_no}: {item.message}`. -/
def formatViolation (root : List String) (v : Violation) : String :=
  "- " ++ relPathString root v.path ++ ":" ++ toString v.line_no ++ ": " ++ v.message

/-- Success message printed when no violations were found. -/
def successMsg : String := "check_gorm_postgres: no raw SQL violations found"

/-- Header printed when violations were found. -/
def headerMsg : String := "check_gorm_postgres: violations found"

/-- Outcome of a run of `main`: the returned exit status and the lines
printed to stdout. -/
structure RunResult where
  exitCode : Nat
  output : List String
deriving DecidableEq

/-- The function `main`, after the `rglob` walk has produced `files` under the resolved
`root`: accumulate violations, then report and choose the exit status. -/
def mainRun (root : List String) (files : List SrcFile) : RunResult :=
  let vs := runViolations root files
  if vs.isEmpty then ⟨0, [successMsg]⟩
  else ⟨1, headerMsg :: vs.map (formatViolation root)⟩

/-- A continuation byte `0x80..0xBF`. -/
def utf8Cont (c : Nat) : Bool := 0x80 ≤ c && c ≤ 0xBF

/-- Decode one UTF-8 scalar whose first byte is `b` and whose following
bytes head `rest`; returns the code point and how many continuation bytes
were consumed, or the strict-decoding error (invalid start byte, overlong
form, surrogate, out-of-range, truncation), as CPython's `utf-8` codec
raises `UnicodeDecodeError`. -/
def utf8Step (b : Nat) (rest : List Nat) : Except String (Nat × Nat) :=
  if b < 0x80 then .ok (b, 0)
  else if b < 0xC2 then .error "invalid start byte"
  else if b ≤ 0xDF then
    match rest with
    | c1 :: _ =>
      if utf8Cont c1 then .ok ((b - 0xC0) * 0x40 + (c1 - 0x80), 1)
      else .error "invalid continuation byte"
    | [] => .error "unexpected end of data"
  else if b ≤ 0xEF then
    match rest with
    | c1 :: c2 :: _ =>
      if (if b = 0xE0 then 0xA0 else 0x80) ≤ c1 ∧
         c1 ≤ (if b = 0xED then 0x9F else 0xBF) ∧ utf8Cont c2 then
        .ok ((b - 0xE0) * 0x1000 + (c1 - 0x80) * 0x40 + (c2 - 0x80), 2)
      else .error "invalid continuation byte"
    | _ => .error "unexpected end of data"
  else if b ≤ 0xF4 then
    match rest with
    | c1 :: c2 :: c3 :: _ =>
      if (if b = 0xF0 then 0x90 else 0x80) ≤ c1 ∧
         c1 ≤ (if b = 0xF4 then 0x8F else 0xBF) ∧ utf8Cont c2 ∧ utf8Cont c3 then
        .ok ((b - 0xF0) * 0x40000 + (c1 - 0x80) * 0x1000 +
               (c2 - 0x80) * 0x40 + (c3 - 0x80), 3)
      else .error "invalid continuation byte"
    | _ => .error "unexpected end of data"
  else .error "invalid start byte"

theorem utf8Step_consumed_le (b : Nat) (rest : List Nat) (cp k : Nat)
    (h : utf8Step b rest = .ok (cp, k)) : k ≤ rest.length := by
  unfold utf8Step at h
  repeat first
  | (split at h; try simp_all)
  | (cases h; omega)
  | simp_all

/-- Python `bytes.decode("utf-8")` (strict). -/
def utf8Decode (l : List Nat) : Except String (List Char) :=
  match l with
  | [] => .ok []
  | b :: rest =>
    match h : utf8Step b rest with
    | .error e => .error e
    | .ok (cp, k) =>
      match utf8Decode (rest.drop k) with
      | .error e => .error e
      | .ok cs => .ok (Char.ofNat cp :: cs)
termination_by l.length
decreasing_by
  have := utf8Step_consumed_le b rest cp k h
  simp [List.length_drop]
  omega

/-- Python `bytes.decode("latin-1")`: each byte maps to the code point of the same
value; it fails on nothing that is a byte. -/
def latin1Decode (l : List Nat) : Except String (List Char) :=
  if l.all (· < 256) then .ok (l.map Char.ofNat)
  else .error "not a byte sequence"

/-- The read in `scan_file`: `path.read_text(encoding="utf-8")`, and on
`UnicodeDecodeError` the fallback `path.read_text(encoding="latin-1")`. -/
def readText (bytes : List Nat) : Except String (List Char) :=
  match utf8Decode bytes with
  | .ok t => .ok t
  | .error _ => latin1Decode bytes

/-- Behaviour of `scan_file` from the file's raw bytes: decode (with fallback) then
scan the resulting text. -/
def scanFileBytes (path : List String) (bytes : List Nat) :
    Except String (List Violation) :=
  (readText bytes).map (scanText path)

/-! ### Helper lemmas -/

theorem strIn_iff (pat l : List Char) : strIn pat l = true ↔ pat <:+: l := by
  simp [strIn]

/-- The function `pyStrip` only removes whitespace characters. -/
theorem mem_pyStrip_of_mem {c : Char} {l : List Char} (h : c ∈ l) :
    isPySpace c = true ∨ c ∈ pyStrip l := by
  unfold pyStrip
  rcases (List.mem_append.mp
      (by rw [List.takeWhile_append_dropWhile] ; exact h :
        c ∈ l.takeWhile isPySpace ++ l.dropWhile isPySpace)) with h1 | h1
  · exact Or.inl (List.mem_takeWhile_imp h1)
  · have h2 : c ∈ (l.dropWhile isPySpace).reverse := List.mem_reverse.mpr h1
    rcases (List.mem_append.mp
        (by rw [List.takeWhile_append_dropWhile] ; exact h2 :
          c ∈ (l.dropWhile isPySpace).reverse.takeWhile isPySpace ++
              (l.dropWhile isPySpace).reverse.dropWhile isPySpace)) with h3 | h3
    · exact Or.inl (List.mem_takeWhile_imp h3)
    · exact Or.inr (List.mem_reverse.mpr h3)

/-- A line that matches the import pattern cannot contain the allow tag:
the tag has characters (such as `g`) that are neither whitespace nor in
the import literal. -/
theorem allowTag_false_of_importMatch {l : List Char}
    (h : importLineMatch l = true) : allowTagIn l = false := by
  rw [importLineMatch, beq_iff_eq] at h
  by_contra hne
  have htag : allowTagIn l = true := by
    cases hA : allowTagIn l
    · exact absurd hA hne
    · rfl
  rw [allowTagIn, strIn_iff] at htag
  obtain ⟨s, t, hst⟩ := htag
  have hg : ('g' : Char) ∈ l := by
    rw [← hst]
    have : ('g' : Char) ∈ ALLOW_TAG.data := by decide
    simp [List.mem_append, this]
  rcases mem_pyStrip_of_mem hg with hsp | hmem
  · exact absurd hsp (by decide)
  · rw [h] at hmem
    exact absurd hmem (by decide)

/-- The three message shapes a violation can carry. -/
def msgOk (m : String) : Prop :=
  m = importMsg ∨ m = sprintfMsg ∨ m ∈ BAD_CALL_PATTERNS.map callMsg

/-- Whether a message is one of the call-pattern messages. -/
def isCallMsg (m : String) : Bool := decide (m ∈ BAD_CALL_PATTERNS.map callMsg)

theorem callMsg_ne_sprintfMsg (p : CallPat) : callMsg p ≠ sprintfMsg := by
  intro h
  have := congrArg String.data h
  rw [callMsg, String.data_append] at this
  simp [sprintfMsg] at this

theorem callMsg_ne_importMsg (p : CallPat) : callMsg p ≠ importMsg := by
  intro h
  have := congrArg String.data h
  rw [callMsg, String.data_append] at this
  simp [importMsg] at this

/-- Enumeration of the possible outputs of `scanLine`. -/
theorem scanLine_cases (path : List String) (i : Nat) (l : List Char) :
    scanLine path i l = [] ∨
    scanLine path i l = [⟨path, i, importMsg⟩] ∨
    scanLine path i l = [⟨path, i, sprintfMsg⟩] ∨
    (∃ p ∈ BAD_CALL_PATTERNS, scanLine path i l = [⟨path, i, callMsg p⟩]) ∨
    (∃ p ∈ BAD_CALL_PATTERNS,
      scanLine path i l = [⟨path, i, sprintfMsg⟩, ⟨path, i, callMsg p⟩]) := by
  unfold scanLine
  cases hA : allowTagIn l
  · cases hI : importLineMatch l
    · cases hS : sprintfSuspect l
      · cases hF : findFirstCall l with
        | none => simp
        | some p =>
          have hp : p ∈ BAD_CALL_PATTERNS := List.mem_of_find?_eq_some hF
          simp only [Bool.false_eq_true, if_false, if_true]
          exact Or.inr (Or.inr (Or.inr (Or.inl ⟨p, hp, by simp⟩)))
      · cases hF : findFirstCall l with
        | none => simp
        | some p =>
          have hp : p ∈ BAD_CALL_PATTERNS := List.mem_of_find?_eq_some hF
          simp only [Bool.false_eq_true, if_false, if_true]
          exact Or.inr (Or.inr (Or.inr (Or.inr ⟨p, hp, by simp⟩)))
    · simp
  · simp

theorem scanLine_of_allowTag (path : List String) (i : Nat) {l : List Char}
    (h : allowTagIn l = true) : scanLine path i l = [] := by
  simp [scanLine, h]

theorem scanLine_of_importMatch (path : List String) (i : Nat) {l : List Char}
    (h : importLineMatch l = true) :
    scanLine path i l = [⟨path, i, importMsg⟩] := by
  simp [scanLine, allowTag_false_of_importMatch h, h]

/-- Every violation of `scanLine path i l` carries `path`, line number `i`
and one of the three message shapes. -/
theorem scanLine_mem_facts {path : List String} {i : Nat} {l : List Char}
    {v : Violation} (h : v ∈ scanLine path i l) :
    v.path = path ∧ v.line_no = i ∧ msgOk v.message := by
  rcases scanLine_cases path i l with hc | hc | hc | ⟨p, hp, hc⟩ | ⟨p, hp, hc⟩ <;>
      rw [hc] at h <;> simp at h
  · exact ⟨by rw [h], by rw [h], Or.inl (by rw [h])⟩
  · exact ⟨by rw [h], by rw [h], Or.inr (Or.inl (by rw [h]))⟩
  · exact ⟨by rw [h], by rw [h],
      Or.inr (Or.inr (by rw [h] ; exact List.mem_map_of_mem callMsg hp))⟩
  · rcases h with h | h
    · exact ⟨by rw [h], by rw [h], Or.inr (Or.inl (by rw [h]))⟩
    · exact ⟨by rw [h], by rw [h],
        Or.inr (Or.inr (by rw [h] ; exact List.mem_map_of_mem callMsg hp))⟩

/-- Intended order of the violation list: strictly increasing line numbers,
except that on a single line the `fmt.Sprintf` violation comes right before
the call-pattern violation. -/
def violOrder (a b : Violation) : Prop :=
  a.line_no < b.line_no ∨
    (a.line_no = b.line_no ∧ a.message = sprintfMsg ∧
      b.message ∈ BAD_CALL_PATTERNS.map callMsg)

theorem scanLine_pairwise (path : List String) (i : Nat) (l : List Char) :
    (scanLine path i l).Pairwise violOrder := by
  rcases scanLine_cases path i l with hc | hc | hc | ⟨p, hp, hc⟩ | ⟨p, hp, hc⟩ <;>
    rw [hc]
  · exact List.Pairwise.nil
  · simp
  · simp
  · simp
  · refine List.pairwise_pair.mpr ?_
    exact Or.inr ⟨rfl, rfl, List.mem_map_of_mem callMsg hp⟩

/-- Facts about every violation produced by the numbered line loop. -/
theorem scanLinesFrom_mem_facts {path : List String} {v : Violation} :
    ∀ {lines : List (List Char)} {k : Nat}, v ∈ scanLinesFrom path k lines →
      v.path = path ∧ k ≤ v.line_no ∧ v.line_no < k + lines.length ∧
        msgOk v.message := by
  intro lines
  induction lines with
  | nil => intro k h ; simp [scanLinesFrom] at h
  | cons l rest ih =>
    intro k h
    rcases List.mem_append.mp h with h1 | h1
    · obtain ⟨hp, hn, hm⟩ := scanLine_mem_facts h1
      exact ⟨hp, by omega, by simp ; omega, hm⟩
    · obtain ⟨hp, hk, hlt, hm⟩ := ih h1
      exact ⟨hp, by omega, by simp at hlt ⊢ ; omega, hm⟩

theorem scanLinesFrom_pairwise (path : List String) :
    ∀ (lines : List (List Char)) (k : Nat),
      (scanLinesFrom path k lines).Pairwise violOrder := by
  intro lines
  induction lines with
  | nil => intro k ; exact List.Pairwise.nil
  | cons l rest ih =>
    intro k
    refine List.pairwise_append.mpr ⟨scanLine_pairwise path k l, ih (k + 1), ?_⟩
    intro a ha b hb
    have hak : a.line_no = k := (scanLine_mem_facts ha).2.1
    have hbk : k + 1 ≤ b.line_no := (scanLinesFrom_mem_facts hb).2.1
    exact Or.inl (by omega)

/-- Filtering the loop's output for one line number yields exactly that
line's violations. -/
theorem scanLinesFrom_filter_line (path : List String) :
    ∀ (lines : List (List Char)) (k j : Nat) (l : List Char),
      lines.get? j = some l →
      (scanLinesFrom path k lines).filter (fun v => decide (v.line_no = k + j)) =
        scanLine path (k + j) l := by
  intro lines
  induction lines with
  | nil => intro k j l h ; simp at h
  | cons l0 rest ih =>
    intro k j l h
    cases j with
    | zero =>
      rw [List.get?_eq_getElem?] at h
      simp at h
      subst h
      rw [scanLinesFrom, List.filter_append]
      have h1 : (scanLine path k l0).filter (fun v => decide (v.line_no = k + 0)) =
          scanLine path k l0 := by
        refine List.filter_eq_self.mpr ?_
        intro v hv
        have := (scanLine_mem_facts hv).2.1
        simp [this]
      have h2 : (scanLinesFrom path (k + 1) rest).filter
          (fun v => decide (v.line_no = k + 0)) = [] := by
        refine List.filter_eq_nil_iff.mpr ?_
        intro v hv
        have := (scanLinesFrom_mem_facts hv).2.1
        simp
        omega
      rw [h1, h2, List.append_nil]
      rfl
    | succ j' =>
      rw [List.get?_eq_getElem?] at h
      simp at h
      rw [scanLinesFrom, List.filter_append]
      have h1 : (scanLine path k l0).filter
          (fun v => decide (v.line_no = k + (j' + 1))) = [] := by
        refine List.filter_eq_nil_iff.mpr ?_
        intro v hv
        have := (scanLine_mem_facts hv).2.1
        simp
        omega
      have h2 := ih (k + 1) j' l (by rw [List.get?_eq_getElem?] ; simp [h])
      rw [h1, List.nil_append]
      rw [show k + (j' + 1) = k + 1 + j' by omega]
      exact h2

/-- A violation of a discovered, accepted file is in the run's accumulated
list. -/
theorem mem_runViolations {root : List String} {files : List SrcFile}
    {f : SrcFile} {v : Violation} (hf : f ∈ files)
    (hs : should_scan (absPath root f) = true)
    (hv : v ∈ scanText (absPath root f) f.text) :
    v ∈ runViolations root files := by
  rw [runViolations, List.mem_flatMap]
  exact ⟨f, hf, by rw [hs] ; simpa using hv⟩

/-- Skipped files contribute nothing to the run. -/
theorem runViolations_skip (root : List String) (pre post : List SrcFile)
    (f : SrcFile) (h : should_scan (absPath root f) = false) :
    runViolations root (pre ++ f :: post) = runViolations root (pre ++ post) := by
  rw [runViolations, runViolations, List.flatMap_append, List.flatMap_append]
  congr 1
  rw [List.flatMap_cons, h]
  simp

/-! ### Claims -/

/-- C2: for every line of a scanned file that contains the allow-marker
string `gorm-postgres-enforcer: allow-raw-sql`, `scan_file` emits zero
violations for that line, even if the line also matches the import pattern,
the `fmt.Sprintf` heuristic, and every forbidden-call pattern. -/
theorem c2_allow_marker_suppresses_line (path : List String) (i : Nat)
    (l : List Char) (h : allowTagIn l = true) : scanLine path i l = [] :=
  scanLine_of_allowTag path i h

/-- A line that matches the `fmt.Sprintf` heuristic and every forbidden-call
pattern while carrying the allow marker. -/
def c2line : String :=
  "x.QueryContext(a).QueryRowContext(b).QueryRow(c).Query(d).ExecContext(e).Exec(f).PrepareContext(g).Prepare(h); fmt.Sprintf(\"SELECT INSERT UPDATE DELETE \") // gorm-postgres-enforcer: allow-raw-sql"

set_option maxRecDepth 8000 in
theorem c2_allow_marker_suppresses_line_witness :
    sprintfSuspect c2line.data = true ∧
    BAD_CALL_PATTERNS.all (fun p => callSearch p.callName.data c2line.data) = true ∧
    scanLine ["a.go"] 1 c2line.data = [] :=
  ⟨by decide, by decide,
    c2_allow_marker_suppresses_line ["a.go"] 1 c2line.data (by decide)⟩

/-- C3: for every line without the allow marker and not matching the import
pattern that matches two or more forbidden-call patterns, `scan_file` emits
exactly one call-pattern violation for that line — the one for the first
pattern, in the fixed pattern-list order, that matches — and none for later
matching patterns. -/
theorem c3_first_call_pattern_wins (path : List String) (i : Nat)
    (l : List Char) (hTag : allowTagIn l = false)
    (hImp : importLineMatch l = false)
    (h2 : 2 ≤ (BAD_CALL_PATTERNS.filter
      (fun p => callSearch p.callName.data l)).length) :
    ∃ p, findFirstCall l = some p ∧
      (scanLine path i l).filter (fun v => isCallMsg v.message) =
        [⟨path, i, callMsg p⟩] := by
  have hex : ∃ p ∈ BAD_CALL_PATTERNS, callSearch p.callName.data l := by
    rcases hfil : BAD_CALL_PATTERNS.filter (fun p => callSearch p.callName.data l)
        with _ | ⟨p, rest⟩
    · rw [hfil] at h2 ; simp at h2
    · have hp : p ∈ BAD_CALL_PATTERNS.filter
          (fun p => callSearch p.callName.data l) := by
        rw [hfil] ; exact List.mem_cons_self p rest
      exact ⟨p, (List.mem_filter.mp hp).1, (List.mem_filter.mp hp).2⟩
  have hsome : (findFirstCall l).isSome := by
    rw [findFirstCall, List.find?_isSome]
    exact hex
  obtain ⟨p, hp⟩ := Option.isSome_iff_exists.mp hsome
  have hpmem : p ∈ BAD_CALL_PATTERNS := List.mem_of_find?_eq_some hp
  refine ⟨p, hp, ?_⟩
  have hcall : isCallMsg (callMsg p) = true := by
    simp only [isCallMsg, decide_eq_true_eq]
    exact List.mem_map_of_mem callMsg hpmem
  rw [scanLine]
  simp only [hTag, hImp, Bool.false_eq_true, if_false, hp]
  cases hS : sprintfSuspect l <;>
    simp [List.filter_append, hcall, show isCallMsg sprintfMsg = false by decide]

/-- A line matching both the `Query` and the `Exec` call patterns. -/
def c3line : String := "db.Query(q); db.Exec(q)"

theorem c3_first_call_pattern_wins_witness :
    ∃ p, findFirstCall c3line.data = some p ∧
      (scanLine ["a.go"] 1 c3line.data).filter (fun v => isCallMsg v.message) =
        [⟨["a.go"], 1, callMsg p⟩] :=
  c3_first_call_pattern_wins ["a.go"] 1 c3line.data (by decide) (by decide)
    (by decide)

/-- C4: for every line without the allow marker and not matching the import
pattern that contains `fmt.Sprintf(` and one of the four SQL keyword+space
substrings, `scan_file` emits a violation with the Sprintf message,
regardless of whether a forbidden-call pattern also matches the same line
(both violations can co-occur on one line). -/
theorem c4_sprintf_heuristic_fires (path : List String) (i : Nat)
    (l : List Char) (hTag : allowTagIn l = false)
    (hImp : importLineMatch l = false) (hS : sprintfSuspect l = true) :
    (⟨path, i, sprintfMsg⟩ : Violation) ∈ scanLine path i l ∧
    ∀ p, findFirstCall l = some p →
      scanLine path i l = [⟨path, i, sprintfMsg⟩, ⟨path, i, callMsg p⟩] := by
  constructor
  · rw [scanLine]
    simp [hTag, hImp, hS]
  · intro p hp
    rw [scanLine]
    simp [hTag, hImp, hS, hp]

/-- A line matching the Sprintf heuristic and the `Query` call pattern. -/
def c4line : String := "rows := db.Query(fmt.Sprintf(\"SELECT %s FROM t\", c))"

theorem c4_sprintf_heuristic_fires_witness :
    (⟨["a.go"], 1, sprintfMsg⟩ : Violation) ∈ scanLine ["a.go"] 1 c4line.data ∧
    ∀ p, findFirstCall c4line.data = some p →
      scanLine ["a.go"] 1 c4line.data =
        [⟨["a.go"], 1, sprintfMsg⟩, ⟨["a.go"], 1, callMsg p⟩] :=
  c4_sprintf_heuristic_fires ["a.go"] 1 c4line.data (by decide) (by decide)
    (by decide)

/-- C5: every line yields at most two violations (at most one Sprintf and at
most one call-pattern violation), none at all when the allow marker is
present, and exactly the import violation — nothing else — when the
forbidden-import pattern matches. -/
theorem c5_per_line_bounds (path : List String) (i : Nat) (l : List Char) :
    (scanLine path i l).length ≤ 2 ∧
    (scanLine path i l).countP (fun v => decide (v.message = sprintfMsg)) ≤ 1 ∧
    (scanLine path i l).countP (fun v => isCallMsg v.message) ≤ 1 ∧
    (allowTagIn l = true → scanLine path i l = []) ∧
    (importLineMatch l = true → scanLine path i l = [⟨path, i, importMsg⟩]) := by
  refine ⟨?_, ?_, ?_, scanLine_of_allowTag path i, scanLine_of_importMatch path i⟩
  · rcases scanLine_cases path i l with hc | hc | hc | ⟨p, _, hc⟩ | ⟨p, _, hc⟩ <;>
      simp [hc]
  · rcases scanLine_cases path i l with hc | hc | hc | ⟨p, _, hc⟩ | ⟨p, _, hc⟩ <;>
      [skip; skip; skip; skip;
        (rw [hc] ; simp [List.countP_cons, callMsg_ne_sprintfMsg p])] <;>
      (rw [hc] ; exact le_trans (List.countP_le_length _) (by simp))
  · rcases scanLine_cases path i l with hc | hc | hc | ⟨p, _, hc⟩ | ⟨p, _, hc⟩ <;>
      [skip; skip; skip; skip;
        (rw [hc] ; simp [List.countP_cons,
          show isCallMsg sprintfMsg = false by decide] ;
          split <;> omega)] <;>
      (rw [hc] ; exact le_trans (List.countP_le_length _) (by simp))

/-- A line that is exactly the quoted import path with surrounding
whitespace. -/
def c5line : String := "\t\"database/sql\"  "

theorem c5_per_line_bounds_witness :
    scanLine ["a.go"] 1 c5line.data = [⟨["a.go"], 1, importMsg⟩] :=
  (c5_per_line_bounds ["a.go"] 1 c5line.data).2.2.2.2 (by decide)

/-- The single-line Go import statement, with the `import` keyword on the
line.  `BAD_IMPORT_PATTERN` is anchored to the whole line, so this line
does not match it. -/
def c1badline : String := "import \"database/sql\""

/-- C1 counterexample: a scanned file whose only line is
`import "database/sql"` (the `import` keyword on the line) produces zero
violations, and the run exits with code 0, contradicting the claim of
exactly one violation and exit code 1. -/
theorem c1_import_keyword_not_flagged :
    should_scan ["repo", "main.go"] = true ∧
    scanText ["repo", "main.go"] c1badline.data = [] ∧
    (mainRun ["repo"] [⟨["main.go"], c1badline.data⟩]).exitCode = 0 :=
  ⟨by decide, by decide, by decide⟩

/-- C1 (amended): for a scanned file containing a line that is exactly the
quoted import path `"database/sql"` up to surrounding whitespace (the
block-import form, without the `import` keyword), `scan_file` emits exactly
one violation for that line, with message `forbidden import
"database/sql"`, and the whole run exits with code 1. -/
theorem c1_import_block_line_flagged (root : List String)
    (files : List SrcFile) (f : SrcFile) (hf : f ∈ files)
    (hs : should_scan (absPath root f) = true) (j : Nat) (l : List Char)
    (hl : (splitlines f.text).get? j = some l)
    (him : importLineMatch l = true) :
    (scanText (absPath root f) f.text).filter
        (fun v => decide (v.line_no = 1 + j)) =
      [⟨absPath root f, 1 + j, importMsg⟩] ∧
    (mainRun root files).exitCode = 1 := by
  have hfil := scanLinesFrom_filter_line (absPath root f) (splitlines f.text)
    1 j l hl
  have hline := scanLine_of_importMatch (absPath root f) (1 + j) him
  have hmain : (scanText (absPath root f) f.text).filter
      (fun v => decide (v.line_no = 1 + j)) =
      [⟨absPath root f, 1 + j, importMsg⟩] := by
    simp only [scanText]
    rw [hfil, hline]
  refine ⟨hmain, ?_⟩
  have hvmem : (⟨absPath root f, 1 + j, importMsg⟩ : Violation) ∈
      scanText (absPath root f) f.text := by
    apply List.mem_of_mem_filter (p := fun v => decide (v.line_no = 1 + j))
    rw [hmain]
    simp
  have hrun := mem_runViolations hf hs hvmem
  have hne : runViolations root files ≠ [] := List.ne_nil_of_mem hrun
  simp [mainRun, List.isEmpty_iff, hne]

/-- A Go file using the factored import block; its second line is exactly
the quoted path. -/
def c1goodtext : String := "import (\n\t\"database/sql\"\n)\n"

theorem c1_import_block_line_flagged_witness :
    (scanText ["repo", "db.go"] c1goodtext.data).filter
        (fun v => decide (v.line_no = 1 + 1)) =
      [⟨["repo", "db.go"], 1 + 1, importMsg⟩] ∧
    (mainRun ["repo"] [⟨["db.go"], c1goodtext.data⟩]).exitCode = 1 :=
  c1_import_block_line_flagged ["repo"] [⟨["db.go"], c1goodtext.data⟩]
    ⟨["db.go"], c1goodtext.data⟩ (by simp) (by decide) 1
    "\t\"database/sql\"".data (by decide) (by decide)

/-- C6: every file excluded by the file-selection rules — suffix other
than `.go`, name ending in `_test.go`, a path component in `SKIP_DIRS`, or
both `docs` and `httpserver` among the components — is rejected by
`should_scan` and contributes no violations to the run, regardless of its
content. -/
theorem c6_excluded_file_never_scanned (root : List String)
    (pre post : List SrcFile) (f : SrcFile)
    (h : pySuffix (pyName (absPath root f)).data ≠ ".go".data ∨
         endsWith "_test.go".data (pyName (absPath root f)).data = true ∨
         (∃ part ∈ absPath root f, part ∈ SKIP_DIRS) ∨
         ("docs" ∈ absPath root f ∧ "httpserver" ∈ absPath root f)) :
    should_scan (absPath root f) = false ∧
    runViolations root (pre ++ f :: post) = runViolations root (pre ++ post) := by
  have hss : should_scan (absPath root f) = false := by
    rw [should_scan]
    split
    next => rfl
    next hA =>
      split
      next => rfl
      next hB =>
        split
        next => rfl
        next hC =>
          split
          next => rfl
          next hD =>
            exfalso
            rcases h with h | h | ⟨part, hpm, hpd⟩ | ⟨h1, h2⟩
            · exact hA h
            · exact hB h
            · exact hC (List.any_eq_true.mpr
                ⟨part, hpm, List.elem_iff.mpr hpd⟩)
            · exact hD (Bool.and_eq_true _ _ |>.mpr
                ⟨List.elem_iff.mpr h1, List.elem_iff.mpr h2⟩)
  exact ⟨hss, runViolations_skip root pre post f hss⟩

/-- A file under a `vendor` directory whose content would otherwise
violate. -/
def c6file : SrcFile := ⟨["vendor", "db.go"], "db.Exec(q)".data⟩

/-- A scannable file used as the surrounding tree. -/
def c6other : SrcFile := ⟨["ok.go"], "x := 1".data⟩

theorem c6_excluded_file_never_scanned_witness :
    should_scan (absPath ["repo"] c6file) = false ∧
    runViolations ["repo"] ([] ++ c6file :: [c6other]) =
      runViolations ["repo"] ([] ++ [c6other]) :=
  c6_excluded_file_never_scanned ["repo"] [] [c6other] c6file
    (Or.inr (Or.inr (Or.inl ⟨"vendor", by decide, by decide⟩)))

/-- C7: after the scan, `main` returns exit status 0 iff the accumulated
violation list is empty (printing the one-line success message), and exit
status 1 iff at least one violation was found (printing the header line
followed by one `- <relative path>:<line>: <message>` line per violation
in accumulation order). -/
theorem c7_exit_status_and_report (root : List String) (files : List SrcFile) :
    ((mainRun root files).exitCode = 0 ↔ runViolations root files = []) ∧
    ((mainRun root files).exitCode = 1 ↔ runViolations root files ≠ []) ∧
    (runViolations root files = [] → mainRun root files = ⟨0, [successMsg]⟩) ∧
    (runViolations root files ≠ [] →
      mainRun root files = ⟨1, headerMsg ::
        (runViolations root files).map (formatViolation root)⟩) := by
  by_cases hv : runViolations root files = []
  · have hm : mainRun root files = ⟨0, [successMsg]⟩ := by
      simp [mainRun, hv]
    rw [hm]
    simp [hv]
  · have hm : mainRun root files = ⟨1, headerMsg ::
        (runViolations root files).map (formatViolation root)⟩ := by
      simp [mainRun, List.isEmpty_iff, hv]
    rw [hm]
    simp [hv]

theorem c7_exit_status_and_report_witness :
    mainRun ["repo"] [] = ⟨0, [successMsg]⟩ :=
  (c7_exit_status_and_report ["repo"] []).2.2.1 rfl

/-- C9: `should_scan` tests every component of the absolute path, so when
the resolved scan root itself lies under a `SKIP_DIRS` directory (or under
both `docs` and `httpserver` components), every file is skipped and the
run reports zero violations regardless of file contents. -/
theorem c9_excluded_root_skips_everything (root : List String)
    (files : List SrcFile)
    (h : (∃ part ∈ root, part ∈ SKIP_DIRS) ∨
         ("docs" ∈ root ∧ "httpserver" ∈ root)) :
    runViolations root files = [] ∧ mainRun root files = ⟨0, [successMsg]⟩ := by
  have hss : ∀ f : SrcFile, should_scan (absPath root f) = false := by
    intro f
    rw [should_scan]
    split
    next => rfl
    next =>
      split
      next => rfl
      next =>
        rcases h with ⟨part, hpm, hpd⟩ | ⟨h1, h2⟩
        · have hC : ((absPath root f).any
              fun part => SKIP_DIRS.contains part) = true :=
            List.any_eq_true.mpr ⟨part,
              (by rw [absPath] ; exact List.mem_append_left _ hpm),
              List.elem_iff.mpr hpd⟩
          rw [if_pos hC]
        · split
          next => rfl
          next =>
            have hC4 : ((absPath root f).contains "docs" &&
                (absPath root f).contains "httpserver") = true := by
              rw [Bool.and_eq_true]
              constructor
              · exact List.elem_iff.mpr
                  (by rw [absPath] ; exact List.mem_append_left _ h1)
              · exact List.elem_iff.mpr
                  (by rw [absPath] ; exact List.mem_append_left _ h2)
            rw [if_pos hC4]
  have hrv : runViolations root files = [] := by
    rw [runViolations]
    induction files with
    | nil => rfl
    | cons f rest ih =>
      rw [List.flatMap_cons, hss f]
      simpa using ih
  exact ⟨hrv, by simp [mainRun, hrv]⟩

theorem c9_excluded_root_skips_everything_witness :
    runViolations ["/", "home", "vendor", "proj"] [⟨["bad.go"], "db.Exec(q)".data⟩] = [] ∧
    mainRun ["/", "home", "vendor", "proj"] [⟨["bad.go"], "db.Exec(q)".data⟩] =
      ⟨0, [successMsg]⟩ :=
  c9_excluded_root_skips_everything ["/", "home", "vendor", "proj"]
    [⟨["bad.go"], "db.Exec(q)".data⟩] (Or.inl ⟨"vendor", by decide, by decide⟩)

/-- C10: every violation returned by `scan_file` is well-formed — its path
is the scanned file's path, its line number is between 1 and the number of
lines of the content, its message is one of the three fixed message forms —
and the returned list is ordered by nondecreasing line number, the Sprintf
violation preceding the call-pattern violation when both occur on a line. -/
theorem c10_scanfile_wellformed (path : List String) (text : List Char) :
    (∀ v ∈ scanText path text,
      v.path = path ∧ 1 ≤ v.line_no ∧ v.line_no ≤ (splitlines text).length ∧
        msgOk v.message) ∧
    (scanText path text).Pairwise violOrder := by
  constructor
  · intro v hv
    simp only [scanText] at hv
    obtain ⟨hp, h1, h2, hm⟩ := scanLinesFrom_mem_facts hv
    exact ⟨hp, h1, by omega, hm⟩
  · exact scanLinesFrom_pairwise path (splitlines text) 1

/-- A two-line file producing a Sprintf violation then a call violation. -/
def c10text : String := "q := fmt.Sprintf(\"SELECT %s\", a)\ndb.Exec(q)\n"

theorem c10_scanfile_wellformed_witness :
    (⟨["a.go"], 2, callMsg ⟨"Exec", "\\.\\s*Exec\\s*\\("⟩⟩ : Violation) ∈
      scanText ["a.go"] c10text.data ∧
    ((⟨["a.go"], 2, callMsg ⟨"Exec", "\\.\\s*Exec\\s*\\("⟩⟩ : Violation).path =
        ["a.go"] ∧
      1 ≤ (⟨["a.go"], 2, callMsg ⟨"Exec", "\\.\\s*Exec\\s*\\("⟩⟩ : Violation).line_no ∧
      (⟨["a.go"], 2, callMsg ⟨"Exec", "\\.\\s*Exec\\s*\\("⟩⟩ : Violation).line_no ≤
        (splitlines c10text.data).length ∧
      msgOk (⟨["a.go"], 2, callMsg ⟨"Exec", "\\.\\s*Exec\\s*\\("⟩⟩ : Violation).message) :=
  ⟨by decide, (c10_scanfile_wellformed ["a.go"] c10text.data).1 _ (by decide)⟩

/-- C8: reading never aborts on a decoding failure — if strict UTF-8
decoding fails, the latin-1 fallback succeeds on every byte sequence, so
`scan_file` returns a violation list for every byte content. -/
theorem c8_decoding_never_fails (path : List String) (bytes : List Nat)
    (h : ∀ b ∈ bytes, b < 256) :
    ∃ vs, scanFileBytes path bytes = Except.ok vs := by
  simp only [scanFileBytes, readText]
  cases hu : utf8Decode bytes with
  | ok t => exact ⟨scanText path t, rfl⟩
  | error e =>
    have hall : bytes.all (fun b => decide (b < 256)) = true :=
      List.all_eq_true.mpr (fun b hb => decide_eq_true (h b hb))
    simp only [latin1Decode, hall, if_true]
    exact ⟨scanText path (bytes.map Char.ofNat), rfl⟩

/-- The bytes of `db.Exec(` followed by the invalid-UTF-8 byte `0xFF`. -/
def c8bytes : List Nat := [0x64, 0x62, 0x2E, 0x45, 0x78, 0x65, 0x63, 0x28, 0xFF]

theorem c8_decoding_never_fails_witness :
    ∃ vs, scanFileBytes ["a.go"] c8bytes = Except.ok vs :=
  c8_decoding_never_fails ["a.go"] c8bytes (by decide)

end CheckGormPostgres
